import Mathlib

/-!
# LSM9DS0 I2C driver shim (`imu.cpp`): embedding and verified properties

The driver talks to the Linux I2C character device through five system calls
(`open`, `ioctl(I2C_SLAVE)`, `write`, `read`, `close`) and reads the wall clock.
The operating system is modelled as an arbitrary deterministic machine
(`Transport σ`) over a state type `σ`; every system call the driver makes is
appended, together with its result, to a trace, so that statements such as
"no transport operation is performed" are statements about the trace.

C++ exceptions are modelled by `Except String`, the global `g_i2c` pointer by
an `Option I2CDevice`.
-/

namespace Imu

/-! ## Constants (imu.cpp lines 15-32) -/

def DEV : String := "/dev/i2c-2"

def ADDR_XM : Nat := 0x1d
def ADDR_G : Nat := 0x6b
def WHO_AM_I : Nat := 0x0F
def CTRL_REG1_XM : Nat := 0x20
def CTRL_REG4_XM : Nat := 0x23
def OUT_X_L_A : Nat := 0x28
def CTRL_REG1_G : Nat := 0x20
def CTRL_REG4_G : Nat := 0x23
def OUT_X_L_G : Nat := 0x28

/-! ## Machine integers -/

/-- Conversion to `uint8_t`. -/
def u8 (n : Nat) : Nat := n % 256

/-- Conversion to `uint16_t`. -/
def u16 (n : Nat) : Nat := n % 65536

/-- Conversion of an `int` to `int16_t` (two's complement wrap-around). -/
def i16 (x : Int) : Int := (x + 32768) % 65536 - 32768

/-- The function `s16` of imu.cpp (lines 105-108):
`uint16_t v = (uint16_t(hi) << 8) | uint16_t(lo);`
`return (v & 0x8000) ? int16_t(v - 65536) : int16_t(v);` -/
def s16 (lo hi : Nat) : Int :=
  let v : Nat := u16 ((u16 hi <<< 8) ||| u16 lo)
  if v &&& 0x8000 ≠ 0 then i16 ((v : Int) - 65536) else i16 (v : Int)

/-! ## The operating system seen by the driver -/

/-- A system call as issued by the driver (arguments only). -/
inductive Req where
  | sysOpen (path : String)
  | ioctl (fd : Int) (addr : Nat)
  | write (fd : Int) (buf : List Nat)
  | read (fd : Int) (n : Nat)
  | close (fd : Int)
  deriving DecidableEq

/-- A system call together with what it returned.
* `sysOpen path fd`: `::open(path, O_RDWR)` returned `fd`;
* `ioctl fd addr ret`: `ioctl(fd, I2C_SLAVE, addr)` returned `ret`;
* `write fd buf ret`: `::write(fd, buf, buf.length)` returned `ret`;
* `read fd n got`: `::read(fd, out, n)` returned a negative value (`none`) or
  transferred the bytes `bs` and returned their number (`some bs`);
* `close fd`: `::close(fd)` (its result is ignored by the driver). -/
inductive Call where
  | sysOpen (path : String) (fd : Int)
  | ioctl (fd : Int) (addr : Nat) (ret : Int)
  | write (fd : Int) (buf : List Nat) (ret : Int)
  | read (fd : Int) (n : Nat) (got : Option (List Nat))
  | close (fd : Int)
  deriving DecidableEq

/-- The request part of a recorded call. -/
def Call.req : Call → Req
  | .sysOpen path _ => .sysOpen path
  | .ioctl fd addr _ => .ioctl fd addr
  | .write fd buf _ => .write fd buf
  | .read fd n _ => .read fd n
  | .close fd => .close fd

/-- A recorded call failed, in the sense the driver tests it: `open` returned a
negative descriptor, `ioctl` returned a negative value, `write` returned
something else than the number of bytes requested, `read` returned a negative
value or a number of bytes different from the one requested. -/
def Call.failed : Call → Bool
  | .sysOpen _ fd => decide (fd < 0)
  | .ioctl _ _ ret => decide (ret < 0)
  | .write _ buf ret => decide (ret ≠ (buf.length : Int))
  | .read _ n got =>
    match got with
    | none => true
    | some bs => decide (bs.length ≠ n)
  | .close _ => false

/-- The operating system (bus device node and clock) as a deterministic machine
over an arbitrary state `σ`: each system call maps the state to a result and a
new state. Nothing is assumed about the results. -/
structure Transport (σ : Type) where
  sysOpen : σ → String → Int × σ
  ioctl : σ → Int → Nat → Int × σ
  write : σ → Int → List Nat → Int × σ
  read : σ → Int → Nat → Option (List Nat) × σ
  close : σ → Int → σ
  clock_gettime : σ → (Int × Int) × σ

/-- The state of the operating system and the chronological record of the bus
system calls made so far. -/
structure World (σ : Type) where
  os : σ
  trace : List Call

variable {σ : Type}

/-- `::open(path, O_RDWR)`, recorded. -/
def sysOpen (T : Transport σ) (path : String) (w : World σ) : Int × World σ :=
  ((T.sysOpen w.os path).1,
   ⟨(T.sysOpen w.os path).2, w.trace ++ [Call.sysOpen path (T.sysOpen w.os path).1]⟩)

/-- `ioctl(fd, I2C_SLAVE, addr)`, recorded. -/
def sysIoctl (T : Transport σ) (fd : Int) (addr : Nat) (w : World σ) : Int × World σ :=
  ((T.ioctl w.os fd addr).1,
   ⟨(T.ioctl w.os fd addr).2, w.trace ++ [Call.ioctl fd addr (T.ioctl w.os fd addr).1]⟩)

/-- `::write(fd, buf, buf.length)`, recorded. -/
def sysWrite (T : Transport σ) (fd : Int) (buf : List Nat) (w : World σ) : Int × World σ :=
  ((T.write w.os fd buf).1,
   ⟨(T.write w.os fd buf).2, w.trace ++ [Call.write fd buf (T.write w.os fd buf).1]⟩)

/-- `::read(fd, out, n)`, recorded. The bytes land in a `uint8_t` buffer, so
each is reduced to `0..255`; the return value is the number of bytes. -/
def sysRead (T : Transport σ) (fd : Int) (n : Nat) (w : World σ) :
    Option (List Nat) × World σ :=
  (((T.read w.os fd n).1).map (List.map u8),
   ⟨(T.read w.os fd n).2,
    w.trace ++ [Call.read fd n (((T.read w.os fd n).1).map (List.map u8))]⟩)

/-- `::close(fd)`, recorded. -/
def sysClose (T : Transport σ) (fd : Int) (w : World σ) : World σ :=
  ⟨T.close w.os fd, w.trace ++ [Call.close fd]⟩

/-- The function `now_s` (lines 35-39): `clock_gettime(CLOCK_REALTIME, &ts)` and
`double(ts.tv_sec) + double(ts.tv_nsec) / 1e9`, the `double` idealised as a
rational number. Reading the clock is not a bus operation and is not recorded. -/
def now_s (T : Transport σ) (w : World σ) : ℚ × World σ :=
  ((((T.clock_gettime w.os).1.1 : Int) : ℚ) + (((T.clock_gettime w.os).1.2 : Int) : ℚ) / 1000000000,
   ⟨(T.clock_gettime w.os).2, w.trace⟩)

/-! ## class I2CDevice (lines 42-103) -/

/-- The only member of `I2CDevice`: the file descriptor. -/
structure I2CDevice where
  fd_ : Int
  deriving DecidableEq

/-- The constructor (lines 44-50): opens the device node, throws when the
descriptor is negative. -/
def I2CDevice.ctor (T : Transport σ) (dev_path : String) (w : World σ) :
    Except String I2CDevice × World σ :=
  let r := sysOpen T dev_path w
  if r.1 < 0 then (.error ("open " ++ dev_path ++ " failed"), r.2)
  else (.ok ⟨r.1⟩, r.2)

/-- The destructor (lines 51-54): `if (fd_ >= 0) ::close(fd_);`. -/
def I2CDevice.dtor (T : Transport σ) (dev : I2CDevice) (w : World σ) : World σ :=
  if dev.fd_ ≥ 0 then sysClose T dev.fd_ w else w

/-- The method `set_addr` (lines 56-61). -/
def I2CDevice.set_addr (T : Transport σ) (dev : I2CDevice) (addr : Nat) (w : World σ) :
    Except String Unit × World σ :=
  let r := sysIoctl T dev.fd_ addr w
  if r.1 < 0 then (.error "ioctl(I2C_SLAVE) failed", r.2) else (.ok (), r.2)

/-- The method `write_reg` (lines 63-70). -/
def I2CDevice.write_reg (T : Transport σ) (dev : I2CDevice) (addr reg val : Nat)
    (w : World σ) : Except String Unit × World σ :=
  match dev.set_addr T addr w with
  | (.error e, w1) => (.error e, w1)
  | (.ok (), w1) =>
    let buf : List Nat := [u8 (reg &&& 0xFF), u8 (val &&& 0xFF)]
    let r := sysWrite T dev.fd_ buf w1
    if r.1 ≠ 2 then (.error "write_reg failed", r.2) else (.ok (), r.2)

/-- The method `read_reg` (lines 72-85). -/
def I2CDevice.read_reg (T : Transport σ) (dev : I2CDevice) (addr reg : Nat)
    (w : World σ) : Except String Nat × World σ :=
  match dev.set_addr T addr w with
  | (.error e, w1) => (.error e, w1)
  | (.ok (), w1) =>
    let r : Nat := u8 (reg &&& 0xFF)
    let wr := sysWrite T dev.fd_ [r] w1
    if wr.1 ≠ 1 then (.error "read_reg(write) failed", wr.2)
    else
      let rd := sysRead T dev.fd_ 1 wr.2
      match rd.1 with
      | none => (.error "read_reg(read) failed", rd.2)
      | some bs =>
        if (bs.length : Int) ≠ 1 then (.error "read_reg(read) failed", rd.2)
        else (.ok (bs.getD 0 0), rd.2)

/-- The buffer `out` after `::read` stored the bytes `bs` at its start. -/
def store (out bs : List Nat) : List Nat := bs ++ out.drop bs.length

/-- The method `read_block` (lines 87-99). The buffer `out` is passed in and
its content after the call is returned next to the outcome. -/
def I2CDevice.read_block (T : Transport σ) (dev : I2CDevice) (addr reg : Nat)
    (out : List Nat) (n : Nat) (w : World σ) :
    (Except String Unit × List Nat) × World σ :=
  match dev.set_addr T addr w with
  | (.error e, w1) => ((.error e, out), w1)
  | (.ok (), w1) =>
    let r : Nat := u8 (reg &&& 0xFF)
    let wr := sysWrite T dev.fd_ [r] w1
    if wr.1 ≠ 1 then ((.error "read_block(write) failed", out), wr.2)
    else
      let rd := sysRead T dev.fd_ n wr.2
      match rd.1 with
      | none => ((.error "read_block(read) failed", out), rd.2)
      | some bs =>
        if bs.length ≠ n then ((.error "read_block(read) failed", store out bs), rd.2)
        else ((.ok (), store out bs), rd.2)

/-! ## The C interface (lines 111-196) -/

/-- `struct ImuData` (imu.h). -/
structure ImuData where
  timestamp_s : ℚ
  ax : Int
  ay : Int
  az : Int
  gx : Int
  gy : Int
  gz : Int
  status : Int

/-- `ImuData data = {0};` -/
def ImuData.zero : ImuData := ⟨0, 0, 0, 0, 0, 0, 0, 0⟩

/-- The whole program state: the global pointer `g_i2c` (`none` is `nullptr`)
and the world outside. -/
structure Sys (σ : Type) where
  g_i2c : Option I2CDevice
  world : World σ

/-- The body of the `try` block of `imu_init` after the device object exists
(lines 128-143). -/
def initSequence (T : Transport σ) (dev : I2CDevice) (w : World σ) :
    Except String Unit × World σ :=
  match dev.read_reg T ADDR_XM WHO_AM_I w with
  | (.error e, w1) => (.error e, w1)
  | (.ok _, w1) =>
  match dev.read_reg T ADDR_G WHO_AM_I w1 with
  | (.error e, w2) => (.error e, w2)
  | (.ok _, w2) =>
  match dev.write_reg T ADDR_XM CTRL_REG1_XM 0x57 w2 with
  | (.error e, w3) => (.error e, w3)
  | (.ok (), w3) =>
  match dev.write_reg T ADDR_XM CTRL_REG4_XM 0x00 w3 with
  | (.error e, w4) => (.error e, w4)
  | (.ok (), w4) =>
  match dev.write_reg T ADDR_G CTRL_REG1_G 0x0F w4 with
  | (.error e, w5) => (.error e, w5)
  | (.ok (), w5) => dev.write_reg T ADDR_G CTRL_REG4_G 0x00 w5

/-- The function `imu_init` (lines 120-152). When the constructor throws,
`g_i2c` has not been assigned and the handler finds it null; when a later step
throws, the handler deletes the object (running the destructor) and resets
`g_i2c`. The message written to `std::cerr` is not part of the model. -/
def imu_init (T : Transport σ) (s : Sys σ) : Int × Sys σ :=
  match s.g_i2c with
  | some _ => (0, s)
  | none =>
    match I2CDevice.ctor T DEV s.world with
    | (.error _, w1) => (-1, ⟨none, w1⟩)
    | (.ok dev, w1) =>
      match initSequence T dev w1 with
      | (.ok (), w2) => (0, ⟨some dev, w2⟩)
      | (.error _, w2) => (-1, ⟨none, dev.dtor T w2⟩)

/-- The function `imu_read` (lines 155-187). `catch (...)` turns every exception
of the two block reads into `status = -2`; the fields assigned before the throw
keep their values. -/
def imu_read (T : Transport σ) (s : Sys σ) : ImuData × Sys σ :=
  let data := ImuData.zero
  match s.g_i2c with
  | none => ({ data with status := -1 }, s)
  | some dev =>
    let a : List Nat := List.replicate 6 0
    match dev.read_block T ADDR_XM (u8 ((OUT_X_L_A ||| 0x80) &&& 0xFF)) a 6 s.world with
    | ((.error _, _), w1) => ({ data with status := -2 }, ⟨some dev, w1⟩)
    | ((.ok (), a), w1) =>
      let data := { data with ax := s16 (a.getD 0 0) (a.getD 1 0),
                              ay := s16 (a.getD 2 0) (a.getD 3 0),
                              az := s16 (a.getD 4 0) (a.getD 5 0) }
      let g : List Nat := List.replicate 6 0
      match dev.read_block T ADDR_G (u8 ((OUT_X_L_G ||| 0x80) &&& 0xFF)) g 6 w1 with
      | ((.error _, _), w2) => ({ data with status := -2 }, ⟨some dev, w2⟩)
      | ((.ok (), g), w2) =>
        let data := { data with gx := s16 (g.getD 0 0) (g.getD 1 0),
                                gy := s16 (g.getD 2 0) (g.getD 3 0),
                                gz := s16 (g.getD 4 0) (g.getD 5 0) }
        let t := now_s T w2
        ({ data with timestamp_s := t.1, status := 0 }, ⟨some dev, t.2⟩)

/-- The function `imu_deinit` (lines 190-195). -/
def imu_deinit (T : Transport σ) (s : Sys σ) : Sys σ :=
  match s.g_i2c with
  | some dev => ⟨none, dev.dtor T s.world⟩
  | none => s

/-! ## Vocabulary for the statements -/

/-- The calls recorded between the world `w` and a later world `w2`. -/
def newCalls (w w2 : World σ) : List Call := w2.trace.drop w.trace.length

/-- The descriptors returned by the successful `open` calls of a trace, in order. -/
def opened : List Call → List Int
  | [] => []
  | .sysOpen _ fd :: cs => if fd < 0 then opened cs else fd :: opened cs
  | _ :: cs => opened cs

/-- The descriptors passed to the `close` calls of a trace, in order. -/
def closed : List Call → List Int
  | [] => []
  | .close fd :: cs => fd :: closed cs
  | _ :: cs => closed cs

/-- Handle bookkeeping. A trace is replayed from the set of open handles
`held` (at most one): a successful `open` is only accepted while no handle is
open, a `close` only for the handle that is open. The result is the handle
open at the end, or `none` when the trace breaks one of the two rules (two
handles open at once, or a close of something that is not open). -/
def replay : Option Int → List Call → Option (Option Int)
  | held, [] => some held
  | held, .sysOpen _ fd :: cs =>
    if fd < 0 then replay held cs
    else match held with
      | none => replay (some fd) cs
      | some _ => none
  | held, .close fd :: cs => if held = some fd then replay none cs else none
  | held, .ioctl _ _ _ :: cs => replay held cs
  | held, .write _ _ _ :: cs => replay held cs
  | held, .read _ _ _ :: cs => replay held cs

/-- The request is a bus transfer on an open descriptor (not `open`, not `close`). -/
def Req.isBus : Req → Bool
  | .ioctl _ _ => true
  | .write _ _ => true
  | .read _ _ => true
  | .sysOpen _ => false
  | .close _ => false

/-- One call of the C interface. -/
inductive Cmd where
  | init
  | read
  | deinit
  deriving DecidableEq

/-- The program state after one call of the C interface. -/
def step (T : Transport σ) (s : Sys σ) : Cmd → Sys σ
  | .init => (imu_init T s).2
  | .read => (imu_read T s).2
  | .deinit => imu_deinit T s

/-- The program state after a sequence of calls of the C interface. -/
def run (T : Transport σ) (s : Sys σ) (cmds : List Cmd) : Sys σ :=
  cmds.foldl (step T) s

/-- Every operation of the transport succeeds, in every state: `open` gives a
descriptor, `ioctl` a non-negative value, `write` and `read` transfer the
number of bytes asked for. -/
structure AllSucceed (T : Transport σ) : Prop where
  sysOpen : ∀ s path, 0 ≤ (T.sysOpen s path).1
  ioctl : ∀ s fd addr, 0 ≤ (T.ioctl s fd addr).1
  write : ∀ s fd buf, (T.write s fd buf).1 = (buf.length : Int)
  read : ∀ s fd n, ∃ bs, (T.read s fd n).1 = some bs ∧ bs.length = n

/-- The events `evs` are a run of the request script `reqs` with outcome `ok`:
the requests issued are an initial part of the script; on success the whole
script was issued and no call failed; on failure some call failed. -/
def Run (reqs : List Req) (evs : List Call) (ok : Bool) : Prop :=
  evs.map Call.req <+: reqs ∧
    (ok = true → evs.map Call.req = reqs ∧ ∀ c ∈ evs, c.failed = false) ∧
    (ok = false → ∃ c ∈ evs, c.failed = true)

/-- The script of `set_addr`. -/
def setAddrReqs (fd : Int) (addr : Nat) : List Req := [.ioctl fd addr]

/-- The script of `write_reg`. -/
def writeRegReqs (fd : Int) (addr reg val : Nat) : List Req :=
  [.ioctl fd addr, .write fd [u8 (reg &&& 0xFF), u8 (val &&& 0xFF)]]

/-- The script of `read_reg`. -/
def readRegReqs (fd : Int) (addr reg : Nat) : List Req :=
  [.ioctl fd addr, .write fd [u8 (reg &&& 0xFF)], .read fd 1]

/-- The script of `read_block`. -/
def readBlockReqs (fd : Int) (addr reg n : Nat) : List Req :=
  [.ioctl fd addr, .write fd [u8 (reg &&& 0xFF)], .read fd n]

/-- Sequencing of two fallible steps: the second runs on the world left by the
first unless the first threw. -/
def andThen {α β : Type} (m : Except String α × World σ)
    (k : α → World σ → Except String β × World σ) : Except String β × World σ :=
  match m with
  | (.error e, w1) => (.error e, w1)
  | (.ok a, w1) => k a w1

/-- The script of the body of `imu_init` once the bus is open. -/
def initReqs (fd : Int) : List Req :=
  readRegReqs fd ADDR_XM WHO_AM_I ++ (readRegReqs fd ADDR_G WHO_AM_I ++
    (writeRegReqs fd ADDR_XM CTRL_REG1_XM 0x57 ++ (writeRegReqs fd ADDR_XM CTRL_REG4_XM 0x00 ++
      (writeRegReqs fd ADDR_G CTRL_REG1_G 0x0F ++ writeRegReqs fd ADDR_G CTRL_REG4_G 0x00))))

/-- The script of `imu_read` on a ready driver: the two block reads. -/
def readReqs (fd : Int) : List Req :=
  readBlockReqs fd ADDR_XM (u8 ((OUT_X_L_A ||| 0x80) &&& 0xFF)) 6 ++
    readBlockReqs fd ADDR_G (u8 ((OUT_X_L_G ||| 0x80) &&& 0xFF)) 6

/-- The handle invariant of the program state: the open/close record of the
trace is well formed and the handle it leaves open is the one `g_i2c` holds
(none when `g_i2c` is null), and a held descriptor is non-negative. -/
def Inv (s : Sys σ) : Prop :=
  replay none s.world.trace = some (s.g_i2c.map I2CDevice.fd_) ∧
    ∀ dev, s.g_i2c = some dev → 0 ≤ dev.fd_

/-! ## Test doubles -/

/-- The state of the fake register file: the device selected last, a register
pointer per device, and the register bytes per device. -/
structure RegFile where
  selected : Nat
  ptr : Nat → Nat
  regs : Nat → Nat → Nat

/-- The fake register file: `ioctl` selects a device; a 2-byte write
`[register, value]` stores `value` at `register` of the selected device; a
1-byte write sets the register pointer of the selected device; a 1-byte read
returns the byte at the pointer of the selected device. Any other transfer is
refused. -/
def fakeRegs : Transport RegFile where
  sysOpen := fun s _ => (3, s)
  ioctl := fun s _ addr => (0, { s with selected := addr })
  write := fun s _ buf =>
    match buf with
    | [r] => (1, { s with ptr := fun d => if d = s.selected then r else s.ptr d })
    | [r, v] =>
      (2, { s with regs := fun d x => if d = s.selected ∧ x = r then v else s.regs d x })
    | _ => (-1, s)
  read := fun s _ n =>
    if n = 1 then (some [s.regs s.selected (s.ptr s.selected)], s) else (none, s)
  close := fun s _ => s
  clock_gettime := fun s => ((0, 0), s)

/-- A transport double that counts the system calls made so far in its state:
the call number `k` (counting from `0`) fails when `bad k`, every other one
succeeds; `open` gives descriptor `3` and a read of `n` bytes gives the bytes
`k+1, k+2, ..., k+n`. -/
def flaky (bad : Nat → Bool) : Transport Nat where
  sysOpen := fun k _ => (if bad k then -1 else 3, k + 1)
  ioctl := fun k _ _ => (if bad k then -1 else 0, k + 1)
  write := fun k _ buf => (if bad k then -1 else (buf.length : Int), k + 1)
  read := fun k _ n =>
    (if bad k then none else some ((List.range n).map fun i => k + 1 + i), k + 1)
  close := fun k _ => k + 1
  clock_gettime := fun k => ((1700000000, 500), k)

/-! ## Lemmas on runs -/

theorem Run.append {r1 r2 : List Req} {e1 e2 : List Call} {b : Bool}
    (h1 : Run r1 e1 true) (h2 : Run r2 e2 b) : Run (r1 ++ r2) (e1 ++ e2) b := by
  obtain ⟨_, h1ok, _⟩ := h1
  obtain ⟨e1eq, e1ok⟩ := h1ok rfl
  obtain ⟨p2, ok2, bad2⟩ := h2
  refine ⟨?_, ?_, ?_⟩
  · rw [List.map_append, e1eq]
    exact (List.prefix_append_right_inj r1).mpr p2
  · intro hb
    obtain ⟨e2eq, e2ok⟩ := ok2 hb
    refine ⟨by rw [List.map_append, e1eq, e2eq], ?_⟩
    intro c hc
    rcases List.mem_append.mp hc with hc | hc
    · exact e1ok c hc
    · exact e2ok c hc
  · intro hb
    obtain ⟨c, hc, hf⟩ := bad2 hb
    exact ⟨c, List.mem_append.mpr (Or.inr hc), hf⟩

theorem Run.stop {r1 : List Req} {e1 : List Call} (r2 : List Req)
    (h1 : Run r1 e1 false) : Run (r1 ++ r2) e1 false := by
  obtain ⟨p1, _, bad1⟩ := h1
  refine ⟨?_, ?_, bad1⟩
  · exact p1.trans (List.prefix_append r1 r2)
  · intro h; cases h

theorem set_addr_run (T : Transport σ) (dev : I2CDevice) (addr : Nat) (w : World σ) :
    ∃ evs, (dev.set_addr T addr w).2.trace = w.trace ++ evs ∧
      Run (setAddrReqs dev.fd_ addr) evs (dev.set_addr T addr w).1.toBool := by
  refine ⟨[Call.ioctl dev.fd_ addr (T.ioctl w.os dev.fd_ addr).1], ?_, ?_⟩
  · by_cases h : (T.ioctl w.os dev.fd_ addr).1 < 0 <;>
      simp [I2CDevice.set_addr, sysIoctl, h]
  · by_cases h : (T.ioctl w.os dev.fd_ addr).1 < 0 <;>
      simp [I2CDevice.set_addr, sysIoctl, h, Run, setAddrReqs, Call.req, Call.failed,
        Except.toBool]

theorem write_reg_run (T : Transport σ) (dev : I2CDevice) (addr reg val : Nat)
    (w : World σ) :
    ∃ evs, (dev.write_reg T addr reg val w).2.trace = w.trace ++ evs ∧
      Run (writeRegReqs dev.fd_ addr reg val) evs (dev.write_reg T addr reg val w).1.toBool := by
  by_cases h1 : (T.ioctl w.os dev.fd_ addr).1 < 0
  · refine ⟨[Call.ioctl dev.fd_ addr (T.ioctl w.os dev.fd_ addr).1], ?_, ?_⟩ <;>
      simp [I2CDevice.write_reg, I2CDevice.set_addr, sysIoctl, h1, Run, writeRegReqs,
        Call.req, Call.failed, Except.toBool]
  · by_cases h2 : (T.write (T.ioctl w.os dev.fd_ addr).2 dev.fd_
        [u8 (reg &&& 0xFF), u8 (val &&& 0xFF)]).1 = 2
    · refine ⟨[Call.ioctl dev.fd_ addr (T.ioctl w.os dev.fd_ addr).1,
        Call.write dev.fd_ [u8 (reg &&& 0xFF), u8 (val &&& 0xFF)] 2], ?_, ?_⟩ <;>
        simp [I2CDevice.write_reg, I2CDevice.set_addr, sysIoctl, sysWrite, h1, h2, Run,
          writeRegReqs, Call.req, Call.failed, Except.toBool]
    · refine ⟨[Call.ioctl dev.fd_ addr (T.ioctl w.os dev.fd_ addr).1,
        Call.write dev.fd_ [u8 (reg &&& 0xFF), u8 (val &&& 0xFF)]
          (T.write (T.ioctl w.os dev.fd_ addr).2 dev.fd_
            [u8 (reg &&& 0xFF), u8 (val &&& 0xFF)]).1], ?_, ?_⟩ <;>
        simp [I2CDevice.write_reg, I2CDevice.set_addr, sysIoctl, sysWrite, h1, h2, Run,
          writeRegReqs, Call.req, Call.failed, Except.toBool]

theorem read_reg_run (T : Transport σ) (dev : I2CDevice) (addr reg : Nat) (w : World σ) :
    ∃ evs, (dev.read_reg T addr reg w).2.trace = w.trace ++ evs ∧
      Run (readRegReqs dev.fd_ addr reg) evs (dev.read_reg T addr reg w).1.toBool := by
  by_cases h1 : (T.ioctl w.os dev.fd_ addr).1 < 0
  · refine ⟨[Call.ioctl dev.fd_ addr (T.ioctl w.os dev.fd_ addr).1], ?_, ?_⟩ <;>
      simp [I2CDevice.read_reg, I2CDevice.set_addr, sysIoctl, h1, Run, readRegReqs,
        Call.req, Call.failed, Except.toBool]
  · by_cases h2 : (T.write (T.ioctl w.os dev.fd_ addr).2 dev.fd_ [u8 (reg &&& 0xFF)]).1 = 1
    · rcases h3 : (T.read (T.write (T.ioctl w.os dev.fd_ addr).2 dev.fd_
          [u8 (reg &&& 0xFF)]).2 dev.fd_ 1).1 with _ | bs
      · refine ⟨[Call.ioctl dev.fd_ addr (T.ioctl w.os dev.fd_ addr).1,
          Call.write dev.fd_ [u8 (reg &&& 0xFF)] 1, Call.read dev.fd_ 1 none], ?_, ?_⟩ <;>
          simp [I2CDevice.read_reg, I2CDevice.set_addr, sysIoctl, sysWrite, sysRead, h1, h2,
            h3, Run, readRegReqs, Call.req, Call.failed, Except.toBool]
      · by_cases h4 : bs.length = 1
        · refine ⟨[Call.ioctl dev.fd_ addr (T.ioctl w.os dev.fd_ addr).1,
            Call.write dev.fd_ [u8 (reg &&& 0xFF)] 1,
            Call.read dev.fd_ 1 (some (bs.map u8))], ?_, ?_⟩ <;>
            simp [I2CDevice.read_reg, I2CDevice.set_addr, sysIoctl, sysWrite, sysRead, h1,
              h2, h3, h4, Run, readRegReqs, Call.req, Call.failed, Except.toBool]
        · refine ⟨[Call.ioctl dev.fd_ addr (T.ioctl w.os dev.fd_ addr).1,
            Call.write dev.fd_ [u8 (reg &&& 0xFF)] 1,
            Call.read dev.fd_ 1 (some (bs.map u8))], ?_, ?_⟩ <;>
            simp [I2CDevice.read_reg, I2CDevice.set_addr, sysIoctl, sysWrite, sysRead, h1,
              h2, h3, h4, Run, readRegReqs, Call.req, Call.failed, Except.toBool]
    · refine ⟨[Call.ioctl dev.fd_ addr (T.ioctl w.os dev.fd_ addr).1,
        Call.write dev.fd_ [u8 (reg &&& 0xFF)]
          (T.write (T.ioctl w.os dev.fd_ addr).2 dev.fd_ [u8 (reg &&& 0xFF)]).1], ?_, ?_⟩ <;>
        simp [I2CDevice.read_reg, I2CDevice.set_addr, sysIoctl, sysWrite, h1, h2, Run,
          readRegReqs, Call.req, Call.failed, Except.toBool]

theorem read_block_run (T : Transport σ) (dev : I2CDevice) (addr reg : Nat)
    (out : List Nat) (n : Nat) (w : World σ) :
    ∃ evs, (dev.read_block T addr reg out n w).2.trace = w.trace ++ evs ∧
      Run (readBlockReqs dev.fd_ addr reg n) evs (dev.read_block T addr reg out n w).1.1.toBool ∧
      ((dev.read_block T addr reg out n w).1.1.toBool = true →
        ∃ r1 bs, evs = [Call.ioctl dev.fd_ addr r1, Call.write dev.fd_ [u8 (reg &&& 0xFF)] 1,
            Call.read dev.fd_ n (some bs)] ∧
          bs.length = n ∧ (∀ b ∈ bs, b < 256) ∧
          (dev.read_block T addr reg out n w).1.2 = store out bs) := by
  by_cases h1 : (T.ioctl w.os dev.fd_ addr).1 < 0
  · refine ⟨[Call.ioctl dev.fd_ addr (T.ioctl w.os dev.fd_ addr).1], ?_, ?_, ?_⟩ <;>
      simp [I2CDevice.read_block, I2CDevice.set_addr, sysIoctl, h1, Run, readBlockReqs,
        Call.req, Call.failed, Except.toBool]
  · by_cases h2 : (T.write (T.ioctl w.os dev.fd_ addr).2 dev.fd_ [u8 (reg &&& 0xFF)]).1 = 1
    · rcases h3 : (T.read (T.write (T.ioctl w.os dev.fd_ addr).2 dev.fd_
          [u8 (reg &&& 0xFF)]).2 dev.fd_ n).1 with _ | bs
      · refine ⟨[Call.ioctl dev.fd_ addr (T.ioctl w.os dev.fd_ addr).1,
          Call.write dev.fd_ [u8 (reg &&& 0xFF)] 1, Call.read dev.fd_ n none], ?_, ?_, ?_⟩ <;>
          simp [I2CDevice.read_block, I2CDevice.set_addr, sysIoctl, sysWrite, sysRead, h1, h2,
            h3, Run, readBlockReqs, Call.req, Call.failed, Except.toBool]
      · by_cases h4 : bs.length = n
        · refine ⟨[Call.ioctl dev.fd_ addr (T.ioctl w.os dev.fd_ addr).1,
            Call.write dev.fd_ [u8 (reg &&& 0xFF)] 1,
            Call.read dev.fd_ n (some (bs.map u8))], ?_, ?_, ?_⟩
          · simp [I2CDevice.read_block, I2CDevice.set_addr, sysIoctl, sysWrite, sysRead, h1,
              h2, h3, h4]
          · simp [I2CDevice.read_block, I2CDevice.set_addr, sysIoctl, sysWrite, sysRead, h1,
              h2, h3, h4, Run, readBlockReqs, Call.req, Call.failed, Except.toBool]
          · intro _
            refine ⟨(T.ioctl w.os dev.fd_ addr).1, bs.map u8, rfl, by simpa using h4, ?_, ?_⟩
            · intro b hb
              obtain ⟨x, _, rfl⟩ := List.mem_map.mp hb
              exact Nat.mod_lt _ (by norm_num)
            · simp [I2CDevice.read_block, I2CDevice.set_addr, sysIoctl, sysWrite, sysRead, h1,
                h2, h3, h4]
        · refine ⟨[Call.ioctl dev.fd_ addr (T.ioctl w.os dev.fd_ addr).1,
            Call.write dev.fd_ [u8 (reg &&& 0xFF)] 1,
            Call.read dev.fd_ n (some (bs.map u8))], ?_, ?_, ?_⟩ <;>
            simp [I2CDevice.read_block, I2CDevice.set_addr, sysIoctl, sysWrite, sysRead, h1,
              h2, h3, h4, Run, readBlockReqs, Call.req, Call.failed, Except.toBool]
    · refine ⟨[Call.ioctl dev.fd_ addr (T.ioctl w.os dev.fd_ addr).1,
        Call.write dev.fd_ [u8 (reg &&& 0xFF)]
          (T.write (T.ioctl w.os dev.fd_ addr).2 dev.fd_ [u8 (reg &&& 0xFF)]).1], ?_, ?_, ?_⟩ <;>
        simp [I2CDevice.read_block, I2CDevice.set_addr, sysIoctl, sysWrite, h1, h2, Run,
          readBlockReqs, Call.req, Call.failed, Except.toBool]

theorem andThen_run {α β : Type} (w : World σ) (m : Except String α × World σ)
    (k : α → World σ → Except String β × World σ) (r1 r2 : List Req)
    (h1 : ∃ evs, m.2.trace = w.trace ++ evs ∧ Run r1 evs m.1.toBool)
    (h2 : ∀ a w1, ∃ evs, (k a w1).2.trace = w1.trace ++ evs ∧ Run r2 evs (k a w1).1.toBool) :
    ∃ evs, (andThen m k).2.trace = w.trace ++ evs ∧
      Run (r1 ++ r2) evs (andThen m k).1.toBool := by
  obtain ⟨e1, t1, run1⟩ := h1
  rcases m with ⟨_ | a, w1⟩
  · exact ⟨e1, t1, Run.stop r2 run1⟩
  · obtain ⟨e2, t2, run2⟩ := h2 a w1
    refine ⟨e1 ++ e2, ?_, Run.append run1 run2⟩
    show (k a w1).2.trace = w.trace ++ (e1 ++ e2)
    rw [t2, ← List.append_assoc]
    exact congrArg (· ++ e2) t1

theorem initSequence_eq (T : Transport σ) (dev : I2CDevice) (w : World σ) :
    initSequence T dev w =
      andThen (dev.read_reg T ADDR_XM WHO_AM_I w) fun _ w1 =>
      andThen (dev.read_reg T ADDR_G WHO_AM_I w1) fun _ w2 =>
      andThen (dev.write_reg T ADDR_XM CTRL_REG1_XM 0x57 w2) fun _ w3 =>
      andThen (dev.write_reg T ADDR_XM CTRL_REG4_XM 0x00 w3) fun _ w4 =>
      andThen (dev.write_reg T ADDR_G CTRL_REG1_G 0x0F w4) fun _ w5 =>
      dev.write_reg T ADDR_G CTRL_REG4_G 0x00 w5 := by
  unfold initSequence
  rcases dev.read_reg T ADDR_XM WHO_AM_I w with ⟨_ | v1, w1⟩
  · rfl
  simp only [andThen]
  rcases dev.read_reg T ADDR_G WHO_AM_I w1 with ⟨_ | v2, w2⟩
  · rfl
  simp only []
  rcases dev.write_reg T ADDR_XM CTRL_REG1_XM 0x57 w2 with ⟨_ | v3, w3⟩
  · rfl
  simp only []
  rcases dev.write_reg T ADDR_XM CTRL_REG4_XM 0x00 w3 with ⟨_ | v4, w4⟩
  · rfl
  simp only []
  rcases dev.write_reg T ADDR_G CTRL_REG1_G 0x0F w4 with ⟨_ | v5, w5⟩
  · rfl
  rfl

theorem initSequence_run (T : Transport σ) (dev : I2CDevice) (w : World σ) :
    ∃ evs, (initSequence T dev w).2.trace = w.trace ++ evs ∧
      Run (initReqs dev.fd_) evs (initSequence T dev w).1.toBool := by
  rw [initSequence_eq]
  unfold initReqs
  refine andThen_run w _ _ _ _ (read_reg_run T dev _ _ w) fun _ w1 => ?_
  refine andThen_run w1 _ _ _ _ (read_reg_run T dev _ _ w1) fun _ w2 => ?_
  refine andThen_run w2 _ _ _ _ (write_reg_run T dev _ _ _ w2) fun _ w3 => ?_
  refine andThen_run w3 _ _ _ _ (write_reg_run T dev _ _ _ w3) fun _ w4 => ?_
  refine andThen_run w4 _ _ _ _ (write_reg_run T dev _ _ _ w4) fun _ w5 => ?_
  exact write_reg_run T dev _ _ _ w5

/-- The three ways a call of `imu_init` on an uninitialised driver can go. -/
theorem imu_init_cases (T : Transport σ) (w : World σ) :
    (∃ fd, fd < 0 ∧ (imu_init T ⟨none, w⟩).1 = -1 ∧ (imu_init T ⟨none, w⟩).2.g_i2c = none ∧
        (imu_init T ⟨none, w⟩).2.world.trace = w.trace ++ [Call.sysOpen DEV fd]) ∨
    (∃ fd evs, 0 ≤ fd ∧ (imu_init T ⟨none, w⟩).1 = 0 ∧
        (imu_init T ⟨none, w⟩).2.g_i2c = some ⟨fd⟩ ∧
        (imu_init T ⟨none, w⟩).2.world.trace = w.trace ++ (Call.sysOpen DEV fd :: evs) ∧
        Run (initReqs fd) evs true) ∨
    (∃ fd evs, 0 ≤ fd ∧ (imu_init T ⟨none, w⟩).1 = -1 ∧
        (imu_init T ⟨none, w⟩).2.g_i2c = none ∧
        (imu_init T ⟨none, w⟩).2.world.trace =
          w.trace ++ (Call.sysOpen DEV fd :: (evs ++ [Call.close fd])) ∧
        Run (initReqs fd) evs false) := by
  by_cases h : (T.sysOpen w.os DEV).1 < 0
  · left
    refine ⟨(T.sysOpen w.os DEV).1, h, ?_, ?_, ?_⟩ <;>
      simp [imu_init, I2CDevice.ctor, sysOpen, h]
  · right
    have hfd : 0 ≤ (T.sysOpen w.os DEV).1 := not_lt.mp h
    obtain ⟨evs, tr, rn⟩ := initSequence_run T ⟨(T.sysOpen w.os DEV).1⟩
      ⟨(T.sysOpen w.os DEV).2, w.trace ++ [Call.sysOpen DEV (T.sysOpen w.os DEV).1]⟩
    rcases hs : initSequence T ⟨(T.sysOpen w.os DEV).1⟩
      ⟨(T.sysOpen w.os DEV).2, w.trace ++ [Call.sysOpen DEV (T.sysOpen w.os DEV).1]⟩
      with ⟨_ | _, w2⟩
    · right
      rw [hs] at tr rn
      refine ⟨(T.sysOpen w.os DEV).1, evs, hfd, ?_, ?_, ?_, rn⟩
      · simp [imu_init, I2CDevice.ctor, sysOpen, h, hs]
      · simp [imu_init, I2CDevice.ctor, sysOpen, h, hs]
      · simp only [] at tr
        simp [imu_init, I2CDevice.ctor, sysOpen, h, hs, I2CDevice.dtor, hfd, sysClose, tr]
    · left
      rw [hs] at tr rn
      refine ⟨(T.sysOpen w.os DEV).1, evs, hfd, ?_, ?_, ?_, rn⟩
      · simp [imu_init, I2CDevice.ctor, sysOpen, h, hs]
      · simp [imu_init, I2CDevice.ctor, sysOpen, h, hs]
      · simp only [] at tr
        simp [imu_init, I2CDevice.ctor, sysOpen, h, hs, tr]

theorem store_full (bs : List Nat) (n : Nat) (h : bs.length = n) :
    store (List.replicate n 0) bs = bs := by
  unfold store
  rw [List.drop_eq_nil_of_le (by simp [h]), List.append_nil]

theorem imu_read_eq_err1 (T : Transport σ) (dev : I2CDevice) (w w1 : World σ) (e : String)
    (a : List Nat)
    (h1 : dev.read_block T ADDR_XM (u8 ((OUT_X_L_A ||| 0x80) &&& 0xFF))
      (List.replicate 6 0) 6 w = ((.error e, a), w1)) :
    imu_read T ⟨some dev, w⟩ = ({ ImuData.zero with status := -2 }, ⟨some dev, w1⟩) := by
  simp only [imu_read, h1]

theorem imu_read_eq_err2 (T : Transport σ) (dev : I2CDevice) (w w1 w2 : World σ) (e : String)
    (a g : List Nat)
    (h1 : dev.read_block T ADDR_XM (u8 ((OUT_X_L_A ||| 0x80) &&& 0xFF))
      (List.replicate 6 0) 6 w = ((.ok (), a), w1))
    (h2 : dev.read_block T ADDR_G (u8 ((OUT_X_L_G ||| 0x80) &&& 0xFF))
      (List.replicate 6 0) 6 w1 = ((.error e, g), w2)) :
    imu_read T ⟨some dev, w⟩ =
      ({ ImuData.zero with ax := s16 (a.getD 0 0) (a.getD 1 0),
                           ay := s16 (a.getD 2 0) (a.getD 3 0),
                           az := s16 (a.getD 4 0) (a.getD 5 0),
                           status := -2 }, ⟨some dev, w2⟩) := by
  simp only [imu_read, h1, h2]

theorem imu_read_eq_ok (T : Transport σ) (dev : I2CDevice) (w w1 w2 : World σ)
    (a g : List Nat)
    (h1 : dev.read_block T ADDR_XM (u8 ((OUT_X_L_A ||| 0x80) &&& 0xFF))
      (List.replicate 6 0) 6 w = ((.ok (), a), w1))
    (h2 : dev.read_block T ADDR_G (u8 ((OUT_X_L_G ||| 0x80) &&& 0xFF))
      (List.replicate 6 0) 6 w1 = ((.ok (), g), w2)) :
    imu_read T ⟨some dev, w⟩ =
      ({ timestamp_s := (now_s T w2).1,
         ax := s16 (a.getD 0 0) (a.getD 1 0),
         ay := s16 (a.getD 2 0) (a.getD 3 0),
         az := s16 (a.getD 4 0) (a.getD 5 0),
         gx := s16 (g.getD 0 0) (g.getD 1 0),
         gy := s16 (g.getD 2 0) (g.getD 3 0),
         gz := s16 (g.getD 4 0) (g.getD 5 0),
         status := 0 }, ⟨some dev, (now_s T w2).2⟩) := by
  simp only [imu_read, h1, h2]

/-- The two ways a call of `imu_read` on a ready driver can go. -/
theorem imu_read_cases (T : Transport σ) (dev : I2CDevice) (w : World σ) :
    (imu_read T ⟨some dev, w⟩).2.g_i2c = some dev ∧
    ∃ evs, (imu_read T ⟨some dev, w⟩).2.world.trace = w.trace ++ evs ∧
      (((imu_read T ⟨some dev, w⟩).1.status = -2 ∧ Run (readReqs dev.fd_) evs false ∧
          (imu_read T ⟨some dev, w⟩).1.timestamp_s = 0) ∨
       ((imu_read T ⟨some dev, w⟩).1.status = 0 ∧ Run (readReqs dev.fd_) evs true ∧
          ∃ r1 r2 a g,
            evs = [Call.ioctl dev.fd_ ADDR_XM r1, Call.write dev.fd_ [0xA8] 1,
                   Call.read dev.fd_ 6 (some a),
                   Call.ioctl dev.fd_ ADDR_G r2, Call.write dev.fd_ [0xA8] 1,
                   Call.read dev.fd_ 6 (some g)] ∧
            a.length = 6 ∧ g.length = 6 ∧ (∀ b ∈ a, b < 256) ∧ (∀ b ∈ g, b < 256) ∧
            (imu_read T ⟨some dev, w⟩).1.ax = s16 (a.getD 0 0) (a.getD 1 0) ∧
            (imu_read T ⟨some dev, w⟩).1.ay = s16 (a.getD 2 0) (a.getD 3 0) ∧
            (imu_read T ⟨some dev, w⟩).1.az = s16 (a.getD 4 0) (a.getD 5 0) ∧
            (imu_read T ⟨some dev, w⟩).1.gx = s16 (g.getD 0 0) (g.getD 1 0) ∧
            (imu_read T ⟨some dev, w⟩).1.gy = s16 (g.getD 2 0) (g.getD 3 0) ∧
            (imu_read T ⟨some dev, w⟩).1.gz = s16 (g.getD 4 0) (g.getD 5 0))) := by
  obtain ⟨e1, t1, run1, ok1⟩ :=
    read_block_run T dev ADDR_XM (u8 ((OUT_X_L_A ||| 0x80) &&& 0xFF)) (List.replicate 6 0) 6 w
  rcases h1 : dev.read_block T ADDR_XM (u8 ((OUT_X_L_A ||| 0x80) &&& 0xFF))
    (List.replicate 6 0) 6 w with ⟨⟨_ | _, a⟩, w1⟩
  · rw [h1] at t1 run1
    rw [imu_read_eq_err1 T dev w w1 _ a h1]
    exact ⟨rfl, e1, t1, Or.inl ⟨rfl, Run.stop _ run1, rfl⟩⟩
  · rw [h1] at t1 run1 ok1
    obtain ⟨r1, bs1, he1, hl1, hb1, hs1⟩ := ok1 rfl
    obtain ⟨e2, t2, run2, ok2⟩ :=
      read_block_run T dev ADDR_G (u8 ((OUT_X_L_G ||| 0x80) &&& 0xFF)) (List.replicate 6 0) 6 w1
    have tr2 : (dev.read_block T ADDR_G (u8 ((OUT_X_L_G ||| 0x80) &&& 0xFF))
        (List.replicate 6 0) 6 w1).2.trace = w.trace ++ (e1 ++ e2) := by
      rw [t2, ← List.append_assoc]
      exact congrArg (· ++ e2) t1
    rcases h2 : dev.read_block T ADDR_G (u8 ((OUT_X_L_G ||| 0x80) &&& 0xFF))
      (List.replicate 6 0) 6 w1 with ⟨⟨_ | _, g⟩, w2⟩
    · rw [h2] at tr2 run2
      rw [imu_read_eq_err2 T dev w w1 w2 _ a g h1 h2]
      exact ⟨rfl, e1 ++ e2, tr2, Or.inl ⟨rfl, Run.append run1 run2, rfl⟩⟩
    · rw [h2] at tr2 run2 ok2
      obtain ⟨r2, bs2, he2, hl2, hb2, hs2⟩ := ok2 rfl
      have ha : a = bs1 := by
        have := store_full bs1 6 hl1
        simp only [] at hs1
        rw [hs1, this]
      have hg : g = bs2 := by
        have := store_full bs2 6 hl2
        simp only [] at hs2
        rw [hs2, this]
      rw [imu_read_eq_ok T dev w w1 w2 a g h1 h2]
      refine ⟨rfl, e1 ++ e2, tr2, Or.inr ⟨rfl, Run.append run1 run2, ?_⟩⟩
      refine ⟨r1, r2, bs1, bs2, ?_, hl1, hl2, hb1, hb2, ?_⟩
      · rw [he1, he2]
        rfl
      · subst ha hg
        exact ⟨rfl, rfl, rfl, rfl, rfl, rfl⟩

/-! ## Lemmas on handle bookkeeping -/

theorem newCalls_append (w w2 : World σ) (evs : List Call)
    (h : w2.trace = w.trace ++ evs) : newCalls w w2 = evs := by
  unfold newCalls
  rw [h, List.drop_left]

theorem Run.bus {reqs : List Req} {evs : List Call} {b : Bool} (h : Run reqs evs b)
    (hr : ∀ r ∈ reqs, r.isBus = true) : ∀ c ∈ evs, c.req.isBus = true := by
  intro c hc
  exact hr _ (h.1.subset (List.mem_map_of_mem Call.req hc))

theorem initReqs_bus (fd : Int) : ∀ r ∈ initReqs fd, r.isBus = true := by
  have h : (initReqs fd).all Req.isBus = true := rfl
  exact fun r hr => List.all_eq_true.mp h r hr

theorem readReqs_bus (fd : Int) : ∀ r ∈ readReqs fd, r.isBus = true := by
  have h : (readReqs fd).all Req.isBus = true := rfl
  exact fun r hr => List.all_eq_true.mp h r hr

theorem opened_append (t e : List Call) : opened (t ++ e) = opened t ++ opened e := by
  induction t with
  | nil => rfl
  | cons c t ih =>
    cases c with
    | sysOpen path fd => by_cases h : fd < 0 <;> simp [opened, h, ih]
    | close fd => simp [opened, ih]
    | ioctl fd addr ret => simp [opened, ih]
    | write fd buf ret => simp [opened, ih]
    | read fd n got => simp [opened, ih]

theorem closed_append (t e : List Call) : closed (t ++ e) = closed t ++ closed e := by
  induction t with
  | nil => rfl
  | cons c t ih => cases c <;> simp [opened, closed, ih]

theorem opened_bus (evs : List Call) (h : ∀ c ∈ evs, c.req.isBus = true) : opened evs = [] := by
  induction evs with
  | nil => rfl
  | cons c t ih =>
    have hc := h c (List.mem_cons_self c t)
    have ht := ih fun d hd => h d (List.mem_cons_of_mem c hd)
    cases c <;> simp_all [opened, Call.req, Req.isBus]

theorem closed_bus (evs : List Call) (h : ∀ c ∈ evs, c.req.isBus = true) : closed evs = [] := by
  induction evs with
  | nil => rfl
  | cons c t ih =>
    have hc := h c (List.mem_cons_self c t)
    have ht := ih fun d hd => h d (List.mem_cons_of_mem c hd)
    cases c <;> simp_all [closed, Call.req, Req.isBus]

theorem replay_bus (held : Option Int) (evs : List Call)
    (h : ∀ c ∈ evs, c.req.isBus = true) : replay held evs = some held := by
  induction evs with
  | nil => rfl
  | cons c t ih =>
    have hc := h c (List.mem_cons_self c t)
    have ht := ih fun d hd => h d (List.mem_cons_of_mem c hd)
    cases c <;> simp_all [replay, Call.req, Req.isBus]

theorem replay_append (held : Option Int) (t e : List Call) :
    replay held (t ++ e) = (replay held t).bind fun h2 => replay h2 e := by
  induction t generalizing held with
  | nil => rfl
  | cons c t ih =>
    cases c with
    | sysOpen path fd =>
      simp only [List.cons_append, replay]
      split
      · exact ih held
      · cases held with
        | none => exact ih _
        | some x => rfl
    | close fd =>
      simp only [List.cons_append, replay]
      split
      · exact ih _
      · rfl
    | ioctl fd addr ret => exact ih held
    | write fd buf ret => exact ih held
    | read fd n got => exact ih held

/-! ## Sign extension -/

theorem shl8_or (lo hi : Nat) (h1 : lo < 256) : (hi <<< 8) ||| lo = hi * 256 + lo := by
  have h := Nat.mul_add_lt_is_or (i := 8) (b := lo) (by simpa using h1) hi
  rw [Nat.shiftLeft_eq, Nat.mul_comm hi (2 ^ 8), ← h]

theorem and_8000 (v : Nat) (hv : v < 65536) : (v &&& 0x8000 ≠ 0) ↔ 32768 ≤ v := by
  have h := Nat.and_two_pow v 15
  have e : (0x8000 : Nat) = 2 ^ 15 := by norm_num
  rw [e, h, Nat.testBit_to_div_mod]
  by_cases c : 32768 ≤ v
  · have : v / 32768 % 2 = 1 := by omega
    simp [this, c]
  · have : v / 32768 % 2 = 0 := by omega
    simp [this, c]

theorem and_ff (v : Nat) : u8 (v &&& 0xFF) = v % 256 := by
  have h := Nat.and_pow_two_sub_one_eq_mod v 8
  have e : (0xFF : Nat) = 2 ^ 8 - 1 := by norm_num
  rw [e, h]
  unfold u8
  omega

/-- C1: for all bytes `lo`, `hi` the value `s16 lo hi` is the signed 16-bit
little-endian reading of `[lo, hi]`: with `u = hi*256 + lo` it is `u` when
`u < 32768` and `u - 65536` otherwise; and the four named pairs decode to
`-1`, `-32768`, `32767` and `1`. -/
theorem s16_signed_little_endian (lo hi : Nat) (hlo : lo < 256) (hhi : hi < 256) :
    s16 lo hi = (if hi * 256 + lo < 32768 then ((hi * 256 + lo : Nat) : Int)
      else ((hi * 256 + lo : Nat) : Int) - 65536) ∧
    s16 0xFF 0xFF = -1 ∧ s16 0x00 0x80 = -32768 ∧ s16 0xFF 0x7F = 32767 ∧
    s16 0x01 0x00 = 1 := by
  refine ⟨?_, by decide, by decide, by decide, by decide⟩
  unfold s16
  have e1 : u16 hi = hi := by unfold u16; omega
  have e2 : u16 lo = lo := by unfold u16; omega
  have e3 : u16 (hi * 256 + lo) = hi * 256 + lo := by unfold u16; omega
  simp only [e1, e2, shl8_or lo hi hlo, e3]
  rw [if_congr (and_8000 (hi * 256 + lo) (by omega)) rfl rfl]
  unfold i16
  split <;> split <;> omega

/-- Witness of C1 at the byte pair `[0x34, 0x92]`. -/
theorem s16_signed_little_endian_witness :
    ((0x34 : Nat) < 256 ∧ (0x92 : Nat) < 256) ∧
    (s16 0x34 0x92 = (if 0x92 * 256 + 0x34 < 32768 then ((0x92 * 256 + 0x34 : Nat) : Int)
        else ((0x92 * 256 + 0x34 : Nat) : Int) - 65536) ∧
      s16 0xFF 0xFF = -1 ∧ s16 0x00 0x80 = -32768 ∧ s16 0xFF 0x7F = 32767 ∧
      s16 0x01 0x00 = 1) :=
  ⟨⟨by decide, by decide⟩, s16_signed_little_endian 0x34 0x92 (by decide) (by decide)⟩

/-! ## Reading and releasing without a device -/

/-- C2: on an uninitialised driver (`g_i2c` null) `imu_read` returns the sample
with `status = -1` and every other field zero, and leaves the whole program
state as it was: the driver stays uninitialised, the operating system state is
untouched and no system call is recorded. -/
theorem imu_read_uninitialized (T : Transport σ) (w : World σ) :
    imu_read T ⟨none, w⟩ = (⟨0, 0, 0, 0, 0, 0, 0, -1⟩, ⟨none, w⟩) ∧
    newCalls w (imu_read T ⟨none, w⟩).2.world = [] := by
  refine ⟨rfl, ?_⟩
  show List.drop w.trace.length w.trace = []
  exact List.drop_length w.trace

/-- C6: from any driver state `imu_deinit` ends uninitialised; a second
`imu_deinit` changes nothing and records no call (so no second close); the
first one closes the descriptor of a ready driver once and closes nothing on an
uninitialised one, which it leaves as it is; and `imu_read` after `imu_deinit`
(directly, or after an `imu_init` in between the start and the `imu_deinit`)
has `status = -1`. -/
theorem imu_deinit_safe (T : Transport σ) (s : Sys σ) (w : World σ) (dev : I2CDevice) :
    (imu_deinit T s).g_i2c = none ∧
    imu_deinit T (imu_deinit T s) = imu_deinit T s ∧
    newCalls (imu_deinit T s).world (imu_deinit T (imu_deinit T s)).world = [] ∧
    imu_deinit T ⟨none, w⟩ = ⟨none, w⟩ ∧
    newCalls w (imu_deinit T ⟨some dev, w⟩).world
      = (if dev.fd_ ≥ 0 then [Call.close dev.fd_] else []) ∧
    (imu_read T (imu_deinit T s)).1.status = -1 ∧
    (imu_read T (imu_deinit T (imu_init T s).2)).1.status = -1 := by
  have un : ∀ s : Sys σ, (imu_deinit T s).g_i2c = none := by
    intro s
    rcases s with ⟨_ | d, w0⟩ <;> rfl
  have idem : ∀ s : Sys σ, s.g_i2c = none → imu_deinit T s = s := by
    intro s h
    rcases s with ⟨_ | d, w0⟩
    · rfl
    · cases h
  have rd : ∀ s : Sys σ, s.g_i2c = none → (imu_read T s).1.status = -1 := by
    intro s h
    rcases s with ⟨_ | d, w0⟩
    · rfl
    · cases h
  refine ⟨un s, idem _ (un s), ?_, rfl, ?_, rd _ (un s), rd _ (un _)⟩
  · rw [idem _ (un s)]
    exact List.drop_length _
  · unfold imu_deinit I2CDevice.dtor
    by_cases h : dev.fd_ ≥ 0
    · simp [h, sysClose, newCalls]
    · simp [h, newCalls]

/-! ## Register round trip -/

/-- C7: against the fake register file, from any state of it, `write_reg(a, r, v)`
succeeds and a following `read_reg(a, r)` returns the byte `v`. -/
theorem write_reg_read_reg_roundtrip (rf : RegFile) (tr : List Call) (dev : I2CDevice)
    (a r v : Nat) (hv : v < 256) :
    (dev.write_reg fakeRegs a r v ⟨rf, tr⟩).1 = .ok () ∧
    (dev.read_reg fakeRegs a r (dev.write_reg fakeRegs a r v ⟨rf, tr⟩).2).1 = .ok v := by
  have e : u8 (v &&& 0xFF) = v := by rw [and_ff]; omega
  have e2 : u8 v = v := by unfold u8; omega
  constructor
  · simp [I2CDevice.write_reg, I2CDevice.set_addr, sysIoctl, sysWrite, fakeRegs]
  · simp [I2CDevice.write_reg, I2CDevice.read_reg, I2CDevice.set_addr, sysIoctl, sysWrite,
      sysRead, fakeRegs, e, e2]

/-! ## Failure during initialisation -/

theorem imu_read_of_none (T : Transport σ) (s : Sys σ) (h : s.g_i2c = none) :
    (imu_read T s).1.status = -1 := by
  rcases s with ⟨_ | d, w0⟩
  · rfl
  · cases h

theorem replay_open_close (fd : Int) (hfd : 0 ≤ fd) (path : String) (evs : List Call)
    (hb : ∀ c ∈ evs, c.req.isBus = true) :
    replay none (Call.sysOpen path fd :: (evs ++ [Call.close fd])) = some none := by
  have h : ¬ fd < 0 := not_lt.mpr hfd
  simp only [replay, h, if_false]
  rw [replay_append, replay_bus _ _ hb]
  simp [replay]

theorem replay_open (fd : Int) (hfd : 0 ≤ fd) (path : String) (evs : List Call)
    (hb : ∀ c ∈ evs, c.req.isBus = true) :
    replay none (Call.sysOpen path fd :: evs) = some (some fd) := by
  have h : ¬ fd < 0 := not_lt.mpr hfd
  simp only [replay, h, if_false]
  exact replay_bus _ _ hb

/-- C3: when some system call of the init sequence fails (the `open`, a device
select, a transfer of a who-am-i read or of a control-register write),
`imu_init` on an uninitialised driver returns a negative code and ends
uninitialised; the descriptors it closed are exactly the descriptors it opened
(none when `open` failed, the one opened otherwise) and the open/close record
is well formed and ends with no handle open; and an `imu_read` issued right
afterwards has `status = -1`, not `-2`. -/
theorem imu_init_failure (T : Transport σ) (w : World σ)
    (h : ∃ c ∈ newCalls w (imu_init T ⟨none, w⟩).2.world, c.failed = true) :
    (imu_init T ⟨none, w⟩).1 < 0 ∧
    (imu_init T ⟨none, w⟩).2.g_i2c = none ∧
    closed (newCalls w (imu_init T ⟨none, w⟩).2.world)
      = opened (newCalls w (imu_init T ⟨none, w⟩).2.world) ∧
    replay none (newCalls w (imu_init T ⟨none, w⟩).2.world) = some none ∧
    (imu_read T (imu_init T ⟨none, w⟩).2).1.status = -1 ∧
    (imu_read T (imu_init T ⟨none, w⟩).2).1.status ≠ -2 := by
  rcases imu_init_cases T w with ⟨fd, hfd, rc, g, tr⟩ | ⟨fd, evs, hfd, rc, g, tr, rn⟩ |
    ⟨fd, evs, hfd, rc, g, tr, rn⟩
  · have hr := imu_read_of_none T _ g
    rw [newCalls_append _ _ _ tr, rc, hr]
    refine ⟨by decide, g, ?_, ?_, rfl, by decide⟩
    · simp [opened, closed, hfd]
    · simp [replay, hfd]
  · exfalso
    rw [newCalls_append _ _ _ tr] at h
    obtain ⟨c, hc, hf⟩ := h
    rcases List.mem_cons.mp hc with rfl | hc
    · simp [Call.failed, not_lt.mpr hfd] at hf
    · rw [(rn.2.1 rfl).2 c hc] at hf
      cases hf
  · have hr := imu_read_of_none T _ g
    have hb := rn.bus (initReqs_bus fd)
    rw [newCalls_append _ _ _ tr, rc, hr]
    refine ⟨by decide, g, ?_, replay_open_close fd hfd DEV evs hb, rfl, by decide⟩
    simp [opened, closed, not_lt.mpr hfd, opened_append, closed_append, opened_bus _ hb,
      closed_bus _ hb]

/-! ## Status of a read on a ready driver -/

/-- C4: on a ready driver `imu_read` returns a sample (the function is total)
and stays ready; the system calls it makes are an initial part of: select
`0x1D`, write the index byte, read 6 bytes, select `0x6B`, write the index
byte, read 6 bytes; its status is `-2` exactly when one of the calls made
failed (a short transfer counts as a failure) and `0` exactly when none did;
in particular a failure within the first three calls (the accelerometer block
read) gives `-2`. -/
theorem imu_read_status (T : Transport σ) (dev : I2CDevice) (w : World σ) :
    (imu_read T ⟨some dev, w⟩).2.g_i2c = some dev ∧
    (newCalls w (imu_read T ⟨some dev, w⟩).2.world).map Call.req <+:
      [Req.ioctl dev.fd_ 0x1D, Req.write dev.fd_ [0xA8], Req.read dev.fd_ 6,
       Req.ioctl dev.fd_ 0x6B, Req.write dev.fd_ [0xA8], Req.read dev.fd_ 6] ∧
    ((imu_read T ⟨some dev, w⟩).1.status = -2 ↔
      ∃ c ∈ newCalls w (imu_read T ⟨some dev, w⟩).2.world, c.failed = true) ∧
    ((imu_read T ⟨some dev, w⟩).1.status = 0 ↔
      ∀ c ∈ newCalls w (imu_read T ⟨some dev, w⟩).2.world, c.failed = false) ∧
    ((∃ c ∈ (newCalls w (imu_read T ⟨some dev, w⟩).2.world).take 3, c.failed = true) →
      (imu_read T ⟨some dev, w⟩).1.status = -2) := by
  obtain ⟨g, evs, tr, hcase⟩ := imu_read_cases T dev w
  rw [newCalls_append _ _ _ tr]
  have key : (imu_read T ⟨some dev, w⟩).1.status = -2 ↔ ∃ c ∈ evs, c.failed = true := by
    rcases hcase with ⟨st, rn, _⟩ | ⟨st, rn, _⟩
    · exact ⟨fun _ => rn.2.2 rfl, fun _ => st⟩
    · constructor
      · intro h2
        rw [st] at h2
        exact absurd h2 (by decide)
      · rintro ⟨c, hc, hf⟩
        rw [(rn.2.1 rfl).2 c hc] at hf
        cases hf
  refine ⟨g, ?_, key, ?_, ?_⟩
  · rcases hcase with ⟨_, rn, _⟩ | ⟨_, rn, _⟩ <;> exact rn.1
  · rcases hcase with ⟨st, rn, _⟩ | ⟨st, rn, _⟩
    · constructor
      · intro h0
        rw [st] at h0
        exact absurd h0 (by decide)
      · intro hall
        obtain ⟨c, hc, hf⟩ := rn.2.2 rfl
        rw [hall c hc] at hf
        cases hf
    · exact ⟨fun _ => (rn.2.1 rfl).2, fun _ => st⟩
  · rintro ⟨c, hc, hf⟩
    exact key.mpr ⟨c, List.mem_of_mem_take hc, hf⟩

/-! ## Decoding of a successful read -/

theorem list_of_length_six (l : List Nat) (h : l.length = 6) :
    ∃ a0 a1 a2 a3 a4 a5, l = [a0, a1, a2, a3, a4, a5] := by
  match l, h with
  | [a0, a1, a2, a3, a4, a5], _ => exact ⟨a0, a1, a2, a3, a4, a5, rfl⟩

/-- C9: on a ready driver, when none of the system calls made by `imu_read`
fails, the calls are exactly: select device `0x1D`, write the single index byte
`0xA8`, read 6 bytes (giving `a0..a5`), select device `0x6B`, write `0xA8`,
read 6 bytes (giving `g0..g5`); and the sample has status `0`,
`ax = s16 a0 a1`, `ay = s16 a2 a3`, `az = s16 a4 a5`, `gx = s16 g0 g1`,
`gy = s16 g2 g3`, `gz = s16 g4 g5`. -/
theorem imu_read_decodes (T : Transport σ) (dev : I2CDevice) (w : World σ)
    (h : ∀ c ∈ newCalls w (imu_read T ⟨some dev, w⟩).2.world, c.failed = false) :
    (imu_read T ⟨some dev, w⟩).1.status = 0 ∧
    ∃ r1 r2 a0 a1 a2 a3 a4 a5 g0 g1 g2 g3 g4 g5,
      newCalls w (imu_read T ⟨some dev, w⟩).2.world =
        [Call.ioctl dev.fd_ 0x1D r1, Call.write dev.fd_ [0xA8] 1,
         Call.read dev.fd_ 6 (some [a0, a1, a2, a3, a4, a5]),
         Call.ioctl dev.fd_ 0x6B r2, Call.write dev.fd_ [0xA8] 1,
         Call.read dev.fd_ 6 (some [g0, g1, g2, g3, g4, g5])] ∧
      (imu_read T ⟨some dev, w⟩).1.ax = s16 a0 a1 ∧
      (imu_read T ⟨some dev, w⟩).1.ay = s16 a2 a3 ∧
      (imu_read T ⟨some dev, w⟩).1.az = s16 a4 a5 ∧
      (imu_read T ⟨some dev, w⟩).1.gx = s16 g0 g1 ∧
      (imu_read T ⟨some dev, w⟩).1.gy = s16 g2 g3 ∧
      (imu_read T ⟨some dev, w⟩).1.gz = s16 g4 g5 := by
  obtain ⟨_, evs, tr, hcase⟩ := imu_read_cases T dev w
  rw [newCalls_append _ _ _ tr] at h ⊢
  rcases hcase with ⟨_, rn, _⟩ | ⟨st, _, r1, r2, a, g, he, la, lg, _, _, hx⟩
  · obtain ⟨c, hc, hf⟩ := rn.2.2 rfl
    rw [h c hc] at hf
    cases hf
  · obtain ⟨a0, a1, a2, a3, a4, a5, rfl⟩ := list_of_length_six a la
    obtain ⟨g0, g1, g2, g3, g4, g5, rfl⟩ := list_of_length_six g lg
    exact ⟨st, r1, r2, a0, a1, a2, a3, a4, a5, g0, g1, g2, g3, g4, g5, he, hx⟩

/-! ## Initialisation on a transport that always succeeds -/

theorem write_reg_ok (T : Transport σ) (hT : AllSucceed T) (dev : I2CDevice)
    (addr reg val : Nat) (w : World σ) :
    (dev.write_reg T addr reg val w).1.toBool = true := by
  have h1 : ¬ (T.ioctl w.os dev.fd_ addr).1 < 0 := not_lt.mpr (hT.ioctl _ _ _)
  have h2 := hT.write (T.ioctl w.os dev.fd_ addr).2 dev.fd_ [u8 (reg &&& 0xFF), u8 (val &&& 0xFF)]
  simp [I2CDevice.write_reg, I2CDevice.set_addr, sysIoctl, sysWrite, h1, h2, Except.toBool]

theorem read_reg_ok (T : Transport σ) (hT : AllSucceed T) (dev : I2CDevice)
    (addr reg : Nat) (w : World σ) :
    (dev.read_reg T addr reg w).1.toBool = true := by
  have h1 : ¬ (T.ioctl w.os dev.fd_ addr).1 < 0 := not_lt.mpr (hT.ioctl _ _ _)
  have h2 := hT.write (T.ioctl w.os dev.fd_ addr).2 dev.fd_ [u8 (reg &&& 0xFF)]
  obtain ⟨bs, h3, h4⟩ := hT.read (T.write (T.ioctl w.os dev.fd_ addr).2 dev.fd_
    [u8 (reg &&& 0xFF)]).2 dev.fd_ 1
  simp [I2CDevice.read_reg, I2CDevice.set_addr, sysIoctl, sysWrite, sysRead, h1, h2, h3, h4,
    Except.toBool]

theorem andThen_ok {α β : Type} (m : Except String α × World σ)
    (k : α → World σ → Except String β × World σ) (h1 : m.1.toBool = true)
    (h2 : ∀ a w1, (k a w1).1.toBool = true) : (andThen m k).1.toBool = true := by
  rcases m with ⟨_ | a, w1⟩
  · cases h1
  · exact h2 a w1

theorem initSequence_ok (T : Transport σ) (hT : AllSucceed T) (dev : I2CDevice)
    (w : World σ) : (initSequence T dev w).1.toBool = true := by
  rw [initSequence_eq]
  refine andThen_ok _ _ (read_reg_ok T hT dev _ _ w) fun _ w1 => ?_
  refine andThen_ok _ _ (read_reg_ok T hT dev _ _ w1) fun _ w2 => ?_
  refine andThen_ok _ _ (write_reg_ok T hT dev _ _ _ w2) fun _ w3 => ?_
  refine andThen_ok _ _ (write_reg_ok T hT dev _ _ _ w3) fun _ w4 => ?_
  refine andThen_ok _ _ (write_reg_ok T hT dev _ _ _ w4) fun _ w5 => ?_
  exact write_reg_ok T hT dev _ _ _ w5

theorem imu_init_rc_ok (T : Transport σ) (hT : AllSucceed T) (w : World σ) :
    (imu_init T ⟨none, w⟩).1 = 0 := by
  have h : ¬ (T.sysOpen w.os DEV).1 < 0 := not_lt.mpr (hT.sysOpen _ _)
  have hok := initSequence_ok T hT ⟨(T.sysOpen w.os DEV).1⟩
    ⟨(T.sysOpen w.os DEV).2, w.trace ++ [Call.sysOpen DEV (T.sysOpen w.os DEV).1]⟩
  rcases hs : initSequence T ⟨(T.sysOpen w.os DEV).1⟩
    ⟨(T.sysOpen w.os DEV).2, w.trace ++ [Call.sysOpen DEV (T.sysOpen w.os DEV).1]⟩
    with ⟨_ | _, w2⟩
  · rw [hs] at hok
    cases hok
  · simp [imu_init, I2CDevice.ctor, sysOpen, h, hs]

/-- The successful run of `imu_init` on a transport that always succeeds. -/
theorem imu_init_ok (T : Transport σ) (hT : AllSucceed T) (w : World σ) :
    ∃ fd evs, 0 ≤ fd ∧ (imu_init T ⟨none, w⟩).1 = 0 ∧
      (imu_init T ⟨none, w⟩).2.g_i2c = some ⟨fd⟩ ∧
      (imu_init T ⟨none, w⟩).2.world.trace = w.trace ++ (Call.sysOpen DEV fd :: evs) ∧
      Run (initReqs fd) evs true := by
  have rc0 := imu_init_rc_ok T hT w
  rcases imu_init_cases T w with ⟨fd, hfd, rc, g, tr⟩ | hB | ⟨fd, evs, hfd, rc, g, tr, rn⟩
  · rw [rc0] at rc
    cases rc
  · exact hB
  · rw [rc0] at rc
    cases rc

/-- C8: on a transport whose operations all succeed, whatever the reads
deliver, `imu_init` on an uninitialised driver returns `0`, ends ready holding
the descriptor `fd` that `open` returned, and makes exactly these system calls
in this order, none failing: open the bus; read register `0x0F` of device
`0x1D` (select, write the index, read one byte); the same for device `0x6B`;
write `[0x20, 0x57]` and `[0x23, 0x00]` to device `0x1D`; write `[0x20, 0x0F]`
and `[0x23, 0x00]` to device `0x6B`. -/
theorem imu_init_sequence (T : Transport σ) (hT : AllSucceed T) (w : World σ) :
    (imu_init T ⟨none, w⟩).1 = 0 ∧
    ∃ fd, 0 ≤ fd ∧ (imu_init T ⟨none, w⟩).2.g_i2c = some ⟨fd⟩ ∧
      (newCalls w (imu_init T ⟨none, w⟩).2.world).map Call.req =
        [Req.sysOpen "/dev/i2c-2",
         Req.ioctl fd 0x1D, Req.write fd [0x0F], Req.read fd 1,
         Req.ioctl fd 0x6B, Req.write fd [0x0F], Req.read fd 1,
         Req.ioctl fd 0x1D, Req.write fd [0x20, 0x57],
         Req.ioctl fd 0x1D, Req.write fd [0x23, 0x00],
         Req.ioctl fd 0x6B, Req.write fd [0x20, 0x0F],
         Req.ioctl fd 0x6B, Req.write fd [0x23, 0x00]] ∧
      ∀ c ∈ newCalls w (imu_init T ⟨none, w⟩).2.world, c.failed = false := by
  obtain ⟨fd, evs, hfd, rc, g, tr, rn⟩ := imu_init_ok T hT w
  obtain ⟨hreq, hgood⟩ := rn.2.1 rfl
  refine ⟨rc, fd, hfd, g, ?_, ?_⟩
  · rw [newCalls_append _ _ _ tr, List.map_cons, hreq]
    rfl
  · rw [newCalls_append _ _ _ tr]
    intro c hc
    rcases List.mem_cons.mp hc with rfl | hc
    · simp [Call.failed, not_lt.mpr hfd]
    · exact hgood c hc

/-- C5: on a ready driver `imu_init` returns `0` and leaves the whole program
state as it was, recording no system call; hence on a transport whose
operations all succeed, two calls of `imu_init` in a row from the
uninitialised state both return `0`, the second adds no call to those of the
first, and together they make one `open` followed by one pass of the setup
sequence. -/
theorem imu_init_idempotent (T : Transport σ) (dev : I2CDevice) (w : World σ) :
    imu_init T ⟨some dev, w⟩ = (0, ⟨some dev, w⟩) ∧
    newCalls w (imu_init T ⟨some dev, w⟩).2.world = [] ∧
    (AllSucceed T →
      (imu_init T ⟨none, w⟩).1 = 0 ∧
      imu_init T (imu_init T ⟨none, w⟩).2 = (0, (imu_init T ⟨none, w⟩).2) ∧
      ∃ fd, (newCalls w (imu_init T (imu_init T ⟨none, w⟩).2).2.world).map Call.req =
          [Req.sysOpen "/dev/i2c-2",
           Req.ioctl fd 0x1D, Req.write fd [0x0F], Req.read fd 1,
           Req.ioctl fd 0x6B, Req.write fd [0x0F], Req.read fd 1,
           Req.ioctl fd 0x1D, Req.write fd [0x20, 0x57],
           Req.ioctl fd 0x1D, Req.write fd [0x23, 0x00],
           Req.ioctl fd 0x6B, Req.write fd [0x20, 0x0F],
           Req.ioctl fd 0x6B, Req.write fd [0x23, 0x00]] ∧
        opened (newCalls w (imu_init T (imu_init T ⟨none, w⟩).2).2.world) = [fd]) := by
  refine ⟨rfl, List.drop_length w.trace, fun hT => ?_⟩
  obtain ⟨fd, evs, hfd, rc, g, tr, rn⟩ := imu_init_ok T hT w
  have second : imu_init T (imu_init T ⟨none, w⟩).2 = (0, (imu_init T ⟨none, w⟩).2) := by
    generalize imu_init T ⟨none, w⟩ = r at g
    rcases r with ⟨c, ⟨gi, w2⟩⟩
    simp only [] at g
    subst g
    rfl
  refine ⟨rc, second, fd, ?_, ?_⟩
  · rw [second, newCalls_append _ _ _ tr, List.map_cons, (rn.2.1 rfl).1]
    rfl
  · rw [second, newCalls_append _ _ _ tr]
    simp [opened, not_lt.mpr hfd, opened_bus _ (rn.bus (initReqs_bus fd))]

/-! ## The handle invariant -/

theorem replay_balance (tr : List Call) : ∀ (held last : Option Int),
    replay held tr = some last → held.toList ++ opened tr = closed tr ++ last.toList := by
  induction tr with
  | nil =>
    intro held last h
    simp only [replay, Option.some.injEq] at h
    subst h
    simp [opened, closed]
  | cons c cs ih =>
    intro held last h
    cases c with
    | sysOpen path fd =>
      by_cases hfd : fd < 0
      · simp only [replay, hfd, if_true] at h
        simpa [opened, closed, hfd] using ih held last h
      · cases held with
        | none =>
          simp only [replay, hfd, if_false] at h
          simpa [opened, closed, hfd] using ih (some fd) last h
        | some x =>
          simp [replay, hfd] at h
    | close fd =>
      by_cases hh : held = some fd
      · simp only [replay, hh, if_true] at h
        simpa [opened, closed, hh] using ih none last h
      · simp [replay, hh] at h
    | ioctl fd addr ret => simpa [opened, closed] using ih held last h
    | write fd buf ret => simpa [opened, closed] using ih held last h
    | read fd n got => simpa [opened, closed] using ih held last h

theorem inv_init (T : Transport σ) (s : Sys σ) (h : Inv s) : Inv (imu_init T s).2 := by
  rcases s with ⟨_ | dev, w⟩
  · have h1 : replay none w.trace = some none := h.1
    rcases imu_init_cases T w with ⟨fd, hfd, _, g, tr⟩ | ⟨fd, evs, hfd, _, g, tr, rn⟩ |
      ⟨fd, evs, hfd, _, g, tr, rn⟩
    · refine ⟨?_, fun dev hd => ?_⟩
      · rw [tr, g, replay_append, h1]
        simp [replay, hfd]
      · rw [g] at hd
        cases hd
    · refine ⟨?_, fun dev hd => ?_⟩
      · rw [tr, g, replay_append, h1]
        exact replay_open fd hfd DEV evs (rn.bus (initReqs_bus fd))
      · rw [g] at hd
        cases hd
        exact hfd
    · refine ⟨?_, fun dev hd => ?_⟩
      · rw [tr, g, replay_append, h1]
        exact replay_open_close fd hfd DEV evs (rn.bus (initReqs_bus fd))
      · rw [g] at hd
        cases hd
  · exact h

theorem inv_read (T : Transport σ) (s : Sys σ) (h : Inv s) : Inv (imu_read T s).2 := by
  rcases s with ⟨_ | dev, w⟩
  · exact h
  · have h1 : replay none w.trace = some (some dev.fd_) := h.1
    obtain ⟨g, evs, tr, hcase⟩ := imu_read_cases T dev w
    have hb : ∀ c ∈ evs, c.req.isBus = true := by
      rcases hcase with ⟨_, rn, _⟩ | ⟨_, rn, _⟩ <;> exact rn.bus (readReqs_bus dev.fd_)
    refine ⟨?_, fun d hd => ?_⟩
    · rw [tr, g, replay_append, h1]
      exact replay_bus _ _ hb
    · rw [g] at hd
      exact h.2 d hd

theorem inv_deinit (T : Transport σ) (s : Sys σ) (h : Inv s) : Inv (imu_deinit T s) := by
  rcases s with ⟨_ | dev, w⟩
  · exact h
  · have h1 : replay none w.trace = some (some dev.fd_) := h.1
    have hfd : 0 ≤ dev.fd_ := h.2 dev rfl
    refine ⟨?_, fun d hd => by cases hd⟩
    show replay none (dev.dtor T w).trace = some none
    have e : (dev.dtor T w).trace = w.trace ++ [Call.close dev.fd_] := by
      simp [I2CDevice.dtor, hfd, sysClose]
    rw [e, replay_append, h1]
    simp [replay]

theorem inv_run (T : Transport σ) (cmds : List Cmd) : ∀ s : Sys σ, Inv s → Inv (run T s cmds) := by
  induction cmds with
  | nil => exact fun s h => h
  | cons c cs ih =>
    intro s h
    show Inv (run T (step T s c) cs)
    apply ih
    cases c
    · exact inv_init T s h
    · exact inv_read T s h
    · exact inv_deinit T s h

/-- C10: from the uninitialised state with an empty call record, after any
finite sequence of `imu_init`, `imu_read` and `imu_deinit` against any
transport: the open/close record is well formed (no `open` succeeds while a
handle is open, every `close` is of the handle that is open) and the handle it
leaves open is exactly the one the driver holds, none when uninitialised; the
descriptors closed are, in order, the descriptors opened, apart from the one
still held; so at most one handle is open; and a held descriptor is valid. -/
theorem handle_discipline (T : Transport σ) (os : σ) (cmds : List Cmd) :
    replay none (run T ⟨none, ⟨os, []⟩⟩ cmds).world.trace
      = some ((run T ⟨none, ⟨os, []⟩⟩ cmds).g_i2c.map I2CDevice.fd_) ∧
    opened (run T ⟨none, ⟨os, []⟩⟩ cmds).world.trace
      = closed (run T ⟨none, ⟨os, []⟩⟩ cmds).world.trace
        ++ ((run T ⟨none, ⟨os, []⟩⟩ cmds).g_i2c.map I2CDevice.fd_).toList ∧
    (opened (run T ⟨none, ⟨os, []⟩⟩ cmds).world.trace).length
      ≤ (closed (run T ⟨none, ⟨os, []⟩⟩ cmds).world.trace).length + 1 ∧
    ((opened (run T ⟨none, ⟨os, []⟩⟩ cmds).world.trace).length
        = (closed (run T ⟨none, ⟨os, []⟩⟩ cmds).world.trace).length + 1 ↔
      (run T ⟨none, ⟨os, []⟩⟩ cmds).g_i2c.isSome = true) ∧
    (∀ dev, (run T ⟨none, ⟨os, []⟩⟩ cmds).g_i2c = some dev → 0 ≤ dev.fd_) := by
  have h0 : Inv (⟨none, ⟨os, []⟩⟩ : Sys σ) := ⟨rfl, fun d hd => by cases hd⟩
  obtain ⟨h1, h2⟩ := inv_run T cmds _ h0
  have hb := replay_balance _ _ _ h1
  simp only [Option.toList, List.nil_append] at hb
  refine ⟨h1, hb, ?_, ?_, h2⟩
  · rw [hb, List.length_append]
    cases (run T ⟨none, ⟨os, []⟩⟩ cmds).g_i2c <;> simp
  · rw [hb, List.length_append]
    cases (run T ⟨none, ⟨os, []⟩⟩ cmds).g_i2c <;> simp

/-! ## Concrete runs -/

theorem flaky_allSucceed : AllSucceed (flaky fun _ => false) where
  sysOpen := fun _ _ => by simp [flaky]
  ioctl := fun _ _ _ => by simp [flaky]
  write := fun _ _ _ => by simp [flaky]
  read := fun k _ n => ⟨(List.range n).map fun i => k + 1 + i, by simp [flaky], by simp⟩

/-- Witness of C3: the bus opens (descriptor `3`) and the first device select
fails. -/
theorem imu_init_failure_witness :
    (∃ c ∈ newCalls ⟨0, []⟩ (imu_init (flaky fun k => k == 1) ⟨none, ⟨0, []⟩⟩).2.world,
      c.failed = true) ∧
    ((imu_init (flaky fun k => k == 1) ⟨none, ⟨0, []⟩⟩).1 < 0 ∧
     (imu_init (flaky fun k => k == 1) ⟨none, ⟨0, []⟩⟩).2.g_i2c = none ∧
     closed (newCalls ⟨0, []⟩ (imu_init (flaky fun k => k == 1) ⟨none, ⟨0, []⟩⟩).2.world)
       = opened (newCalls ⟨0, []⟩ (imu_init (flaky fun k => k == 1) ⟨none, ⟨0, []⟩⟩).2.world) ∧
     replay none (newCalls ⟨0, []⟩ (imu_init (flaky fun k => k == 1) ⟨none, ⟨0, []⟩⟩).2.world)
       = some none ∧
     (imu_read (flaky fun k => k == 1)
       (imu_init (flaky fun k => k == 1) ⟨none, ⟨0, []⟩⟩).2).1.status = -1 ∧
     (imu_read (flaky fun k => k == 1)
       (imu_init (flaky fun k => k == 1) ⟨none, ⟨0, []⟩⟩).2).1.status ≠ -2) :=
  ⟨⟨Call.ioctl 3 0x1D (-1), by decide, by decide⟩,
   imu_init_failure (flaky fun k => k == 1) ⟨0, []⟩ ⟨Call.ioctl 3 0x1D (-1), by decide, by decide⟩⟩

/-- Witness of C4: the 6-byte read of the accelerometer block fails. -/
theorem imu_read_status_witness :
    (∃ c ∈ (newCalls ⟨250, []⟩
        (imu_read (flaky fun k => k == 252) ⟨some ⟨3⟩, ⟨250, []⟩⟩).2.world).take 3,
      c.failed = true) ∧
    (imu_read (flaky fun k => k == 252) ⟨some ⟨3⟩, ⟨250, []⟩⟩).1.status = -2 :=
  ⟨⟨Call.read 3 6 none, by decide, by decide⟩,
   (imu_read_status (flaky fun k => k == 252) ⟨3⟩ ⟨250, []⟩).2.2.2.2
     ⟨Call.read 3 6 none, by decide, by decide⟩⟩

/-- Witness of C5: two calls of `imu_init` on the transport double that never
fails. -/
theorem imu_init_idempotent_witness :
    AllSucceed (flaky fun _ => false) ∧
    ((imu_init (flaky fun _ => false) ⟨none, ⟨0, []⟩⟩).1 = 0 ∧
      imu_init (flaky fun _ => false) (imu_init (flaky fun _ => false) ⟨none, ⟨0, []⟩⟩).2
        = (0, (imu_init (flaky fun _ => false) ⟨none, ⟨0, []⟩⟩).2) ∧
      ∃ fd, (newCalls ⟨0, []⟩ (imu_init (flaky fun _ => false)
          (imu_init (flaky fun _ => false) ⟨none, ⟨0, []⟩⟩).2).2.world).map Call.req =
          [Req.sysOpen "/dev/i2c-2",
           Req.ioctl fd 0x1D, Req.write fd [0x0F], Req.read fd 1,
           Req.ioctl fd 0x6B, Req.write fd [0x0F], Req.read fd 1,
           Req.ioctl fd 0x1D, Req.write fd [0x20, 0x57],
           Req.ioctl fd 0x1D, Req.write fd [0x23, 0x00],
           Req.ioctl fd 0x6B, Req.write fd [0x20, 0x0F],
           Req.ioctl fd 0x6B, Req.write fd [0x23, 0x00]] ∧
        opened (newCalls ⟨0, []⟩ (imu_init (flaky fun _ => false)
          (imu_init (flaky fun _ => false) ⟨none, ⟨0, []⟩⟩).2).2.world) = [fd]) :=
  ⟨flaky_allSucceed,
   (imu_init_idempotent (flaky fun _ => false) ⟨3⟩ ⟨0, []⟩).2.2 flaky_allSucceed⟩

/-- Witness of C7: `0x57` written to register `0x20` of device `0x1D` of an
all-zero register file is read back. -/
theorem write_reg_read_reg_roundtrip_witness :
    (0x57 : Nat) < 256 ∧
    ((⟨3⟩ : I2CDevice).write_reg fakeRegs 0x1D 0x20 0x57
        ⟨⟨0, fun _ => 0, fun _ _ => 0⟩, []⟩).1 = .ok () ∧
    ((⟨3⟩ : I2CDevice).read_reg fakeRegs 0x1D 0x20
      ((⟨3⟩ : I2CDevice).write_reg fakeRegs 0x1D 0x20 0x57
        ⟨⟨0, fun _ => 0, fun _ _ => 0⟩, []⟩).2).1 = .ok 0x57 :=
  ⟨by decide,
   write_reg_read_reg_roundtrip ⟨0, fun _ => 0, fun _ _ => 0⟩ [] ⟨3⟩ 0x1D 0x20 0x57 (by decide)⟩

/-- Witness of C8: `imu_init` on the transport double that never fails. -/
theorem imu_init_sequence_witness :
    AllSucceed (flaky fun _ => false) ∧
    ((imu_init (flaky fun _ => false) ⟨none, ⟨0, []⟩⟩).1 = 0 ∧
      ∃ fd, 0 ≤ fd ∧ (imu_init (flaky fun _ => false) ⟨none, ⟨0, []⟩⟩).2.g_i2c = some ⟨fd⟩ ∧
        (newCalls ⟨0, []⟩ (imu_init (flaky fun _ => false) ⟨none, ⟨0, []⟩⟩).2.world).map
            Call.req =
          [Req.sysOpen "/dev/i2c-2",
           Req.ioctl fd 0x1D, Req.write fd [0x0F], Req.read fd 1,
           Req.ioctl fd 0x6B, Req.write fd [0x0F], Req.read fd 1,
           Req.ioctl fd 0x1D, Req.write fd [0x20, 0x57],
           Req.ioctl fd 0x1D, Req.write fd [0x23, 0x00],
           Req.ioctl fd 0x6B, Req.write fd [0x20, 0x0F],
           Req.ioctl fd 0x6B, Req.write fd [0x23, 0x00]] ∧
        ∀ c ∈ newCalls ⟨0, []⟩ (imu_init (flaky fun _ => false) ⟨none, ⟨0, []⟩⟩).2.world,
          c.failed = false) :=
  ⟨flaky_allSucceed, imu_init_sequence (flaky fun _ => false) flaky_allSucceed ⟨0, []⟩⟩

/-- Witness of C9: a read on the transport double that never fails; the
accelerometer block is `FD FE FF 00 01 02`. -/
theorem imu_read_decodes_witness :
    (∀ c ∈ newCalls ⟨250, []⟩ (imu_read (flaky fun _ => false) ⟨some ⟨3⟩, ⟨250, []⟩⟩).2.world,
      c.failed = false) ∧
    ((imu_read (flaky fun _ => false) ⟨some ⟨3⟩, ⟨250, []⟩⟩).1.status = 0 ∧
      ∃ r1 r2 a0 a1 a2 a3 a4 a5 g0 g1 g2 g3 g4 g5,
        newCalls ⟨250, []⟩ (imu_read (flaky fun _ => false) ⟨some ⟨3⟩, ⟨250, []⟩⟩).2.world =
          [Call.ioctl 3 0x1D r1, Call.write 3 [0xA8] 1,
           Call.read 3 6 (some [a0, a1, a2, a3, a4, a5]),
           Call.ioctl 3 0x6B r2, Call.write 3 [0xA8] 1,
           Call.read 3 6 (some [g0, g1, g2, g3, g4, g5])] ∧
        (imu_read (flaky fun _ => false) ⟨some ⟨3⟩, ⟨250, []⟩⟩).1.ax = s16 a0 a1 ∧
        (imu_read (flaky fun _ => false) ⟨some ⟨3⟩, ⟨250, []⟩⟩).1.ay = s16 a2 a3 ∧
        (imu_read (flaky fun _ => false) ⟨some ⟨3⟩, ⟨250, []⟩⟩).1.az = s16 a4 a5 ∧
        (imu_read (flaky fun _ => false) ⟨some ⟨3⟩, ⟨250, []⟩⟩).1.gx = s16 g0 g1 ∧
        (imu_read (flaky fun _ => false) ⟨some ⟨3⟩, ⟨250, []⟩⟩).1.gy = s16 g2 g3 ∧
        (imu_read (flaky fun _ => false) ⟨some ⟨3⟩, ⟨250, []⟩⟩).1.gz = s16 g4 g5) :=
  ⟨by decide, imu_read_decodes (flaky fun _ => false) ⟨3⟩ ⟨250, []⟩ (by decide)⟩

/-- Witness of C10: a session in which the second `imu_init` fails half way. -/
theorem handle_discipline_witness :
    opened (run (flaky fun k => k == 24) ⟨none, ⟨0, []⟩⟩
        [.init, .read, .deinit, .deinit, .init, .read, .init]).world.trace = [3, 3, 3] ∧
    closed (run (flaky fun k => k == 24) ⟨none, ⟨0, []⟩⟩
        [.init, .read, .deinit, .deinit, .init, .read, .init]).world.trace = [3, 3] ∧
    (run (flaky fun k => k == 24) ⟨none, ⟨0, []⟩⟩
        [.init, .read, .deinit, .deinit, .init, .read, .init]).g_i2c = some ⟨3⟩ ∧
    ∀ dev, (run (flaky fun k => k == 24) ⟨none, ⟨0, []⟩⟩
        [.init, .read, .deinit, .deinit, .init, .read, .init]).g_i2c = some dev →
      0 ≤ dev.fd_ :=
  ⟨by decide, by decide, by decide,
   (handle_discipline (flaky fun k => k == 24) 0
     [.init, .read, .deinit, .deinit, .init, .read, .init]).2.2.2.2⟩

end Imu
